import Mathlib

/-!
# Shallow embedding of `fdp2bin` (flamewing/flamedriver, `src/fdp2bin/fdp2bin.cc`)

The program converts an AS-assembler `.p` object file into a flat binary ROM
image.  The core is `buildRom` (fdp2bin.cc lines 88-239): after two magic
bytes it loops over segment records, placing ordinary segments at their
absolute start address and passing the single Z80 sound-driver segment
(`cpuType == 0x51`, `start == 0`) through the Kosinski compressor, appending
the compressed bytes at the current output cursor.

Modelling choices, each tied to the source:
* The input stream (`istream &in`) is the list of not-yet-consumed bytes plus
  the stream's `good` flag.  A failed read returns 0 and clears `good`; the
  C++ value of a failed read is unspecified garbage, and no theorem below
  depends on it.
* `Read1`, `LittleEndian::Read2`, `LittleEndian::Read4` come from
  `bigendian_io.h`, which is not part of this repository's sources; they are
  modelled from the spec: byte reads composed little-endian, `Read4` as a
  signed 32-bit value (`signed long start = LittleEndian::Read4(in)` with the
  `start < 0` check at line 153), `Read2` as an unsigned 16-bit value.
* The output stream (`ostream &out`) is a byte list plus a put cursor;
  `seekp` moves the cursor, writes overwrite in place and zero-fill any gap
  beyond the current end, mirroring file-stream semantics (spec section 6:
  gaps are "commonly zero").
* `kosinski::encode` (library `kosinski.h`, not in this repository) is an
  abstract parameter `encode : List Nat → List Nat`; the spec gives only its
  contract (deterministic, lossless byte-buffer transformer).
* The 4096-byte `scratch` chunking of the ordinary copy loop (lines 226-234)
  has no observable effect on the copied bytes and is modelled as one
  `record.length`-byte copy.
* `compCount` is a ghost counter (not in the source) incremented exactly when
  the compressed-segment path (lines 175-192) runs; it only serves to state
  stream-level claims about how many compressed segments were processed.
* The per-iteration locals `cpuType`, `segmentType`, `granularity`, `start`,
  `length` are declared outside the `while` loop in the C++, but every path
  that uses them reassigns them first ( `start = lastStart + lastLength` at
  line 177 is dead after the `continue`), so they are locals of `step` here.
-/

/-- Input byte stream: the bytes not yet consumed plus the C++ stream's
`good` flag.  Once a read fails the flag is cleared and every later read
fails as well. -/
structure IStream where
  rem : List Nat
  good : Bool
  deriving DecidableEq

/-- `Read1` (bigendian_io.h, modelled from the spec): one byte, advancing the
stream.  The `% 256` mirrors the `unsigned char` the C++ reads into; on real
byte input it is the identity.  A failed read returns 0 (value never used by
the program before checking `good`). -/
def read1 (s : IStream) : Nat × IStream :=
  if s.good then
    match s.rem with
    | [] => (0, ⟨[], false⟩)
    | b :: r => (b % 256, ⟨r, true⟩)
  else
    (0, s)

/-- `LittleEndian::Read2` (modelled from the spec): unsigned 16-bit
little-endian, two byte reads. -/
def read2LE (s : IStream) : Nat × IStream :=
  match read1 s with
  | (b0, s0) =>
    match read1 s0 with
    | (b1, s1) => (b0 + 256 * b1, s1)

/-- `LittleEndian::Read4` (modelled from the spec): 32-bit little-endian,
four byte reads, raw unsigned value. -/
def read4LE (s : IStream) : Nat × IStream :=
  match read1 s with
  | (b0, s0) =>
    match read1 s0 with
    | (b1, s1) =>
      match read1 s1 with
      | (b2, s2) =>
        match read1 s2 with
        | (b3, s3) => (b0 + 256 * b1 + 65536 * b2 + 16777216 * b3, s3)

/-- Two's-complement reinterpretation of a raw 32-bit value, for
`signed long start = LittleEndian::Read4(in)` (line 140; modelled from the
spec, which declares `startAddress` signed 32-bit). -/
def toSigned32 (v : Nat) : Int :=
  if v < 2147483648 then (v : Int) else (v : Int) - 4294967296

/-- `in.read(buf, n)`: consume `n` bytes.  When fewer are available the C++
read fails leaving unspecified bytes in the tail of the buffer; the model
returns zeros there and clears `good` (no theorem depends on the fill). -/
def readBytes (n : Nat) (s : IStream) : List Nat × IStream :=
  if s.good then
    if n ≤ s.rem.length then
      (s.rem.take n, ⟨s.rem.drop n, true⟩)
    else
      (s.rem ++ List.replicate (n - s.rem.length) 0, ⟨[], false⟩)
  else
    (List.replicate n 0, s)

/-- `in.ignore(3)` for the entry-point segment (line 115). -/
def ignore3 (s : IStream) : IStream :=
  if s.good then
    if 3 ≤ s.rem.length then ⟨s.rem.drop 3, true⟩ else ⟨[], false⟩
  else
    s

/-- Output stream (`ostream &out`): written bytes plus the put cursor. -/
structure OStream where
  data : List Nat
  pos : Nat
  deriving DecidableEq

/-- Zero-pad a byte list up to length `n` (file-stream gap filling). -/
def padTo (l : List Nat) (n : Nat) : List Nat :=
  l ++ List.replicate (n - l.length) 0

/-- Write the run `bs` at offset `p` of image `d`: bytes before `p` are kept
(zero-padded if the file was shorter), `bs` overwrites `p .. p+|bs|-1`, and
any older bytes beyond survive. -/
def writeBytesAt (d : List Nat) (p : Nat) (bs : List Nat) : List Nat :=
  (padTo d p).take p ++ bs ++ (padTo d (p + bs.length)).drop (p + bs.length)

/-- Sequential write at the current put cursor, advancing it. -/
def writeOut (o : OStream) (bs : List Nat) : OStream :=
  ⟨writeBytesAt o.data o.pos bs, o.pos + bs.length⟩

/-- `out.seekp(n, ios::beg)` (line 224). -/
def seekp (o : OStream) (n : Nat) : OStream :=
  ⟨o.data, n⟩

/-- The non-fatal diagnostics `buildRom` can print. -/
inductive Warn
  | badMagic1
  | badMagic2
  | overlap
  deriving DecidableEq

/-- The fatal errors of `buildRom`; each tags one of the distinct
`return false` sites (names follow the spec, section 7). -/
inductive BuildError
  | UnsupportedGranularity
  | UnsupportedSegmentHeader
  | ZeroLengthSegment
  | NegativeStartAddress
  | FragmentedCompressedSegment
  | CompressedSegmentDoesNotFit
  deriving DecidableEq

/-- The state of the `while` loop of `buildRom` (lines 98-105): input and
output streams, the by-reference `compressedLength` (initialised to 0 by
`main`, line 26), the adjacency bookkeeping `lastStart`/`lastLength`, the
`lastSegmentCompressed` flag, plus the warnings printed so far and the ghost
counter `compCount` of compressed-path records. -/
structure LoopState where
  input : IStream
  out : OStream
  compressedLength : Nat
  lastStart : Int
  lastLength : Nat
  lastSegmentCompressed : Bool
  warnings : List Warn
  compCount : Nat
  deriving DecidableEq

/-- Outcome of one iteration of the loop body: `done` is `return true`
(header `0x00`) or the end-of-input `break`; `fail` is a `return false`
site; `next` is `continue` / fall-through to the next iteration. -/
inductive StepResult
  | done (s : LoopState)
  | fail (e : BuildError) (s : LoopState)
  | next (s : LoopState)
  deriving DecidableEq

/-- Result status of a whole run.  `outOfFuel` is an artifact of the fuelled
loop and is unreachable from `buildRom`, whose fuel bounds the iteration
count by the remaining input length. -/
inductive Status
  | success
  | fatal (e : BuildError)
  | outOfFuel
  deriving DecidableEq

/-- Lines 140-234 of `buildRom`: the common record handling once the header
has produced a `cpuType`.  Reads `start` (signed 32-bit LE) and `length`
(unsigned 16-bit LE), validates, then either the compressed Z80 path
(lines 175-192) or ordinary placement (lines 195-234). -/
def handleRecord (encode : List Nat → List Nat) (st : LoopState)
    (cpuType : Nat) : StepResult :=
  match read4LE st.input with
  | (rawStart, sa) =>
    match read2LE sa with
    | (length, sb) =>
      let start : Int := toSigned32 rawStart
      if length = 0 then
        -- line 143: zero length segment
        .fail .ZeroLengthSegment { st with input := sb }
      else if start < 0 then
        -- line 153: negative start address
        .fail .NegativeStartAddress { st with input := sb }
      else if cpuType = 0x51 ∧ start ≠ 0 ∧ st.lastSegmentCompressed = true then
        -- line 162: fragmented compressed Z80 code
        .fail .FragmentedCompressedSegment { st with input := sb }
      else if cpuType = 0x51 ∧ start = 0 then
        -- lines 175-192: Kosinski-compressed Z80 segment.  The local
        -- `start = lastStart + lastLength` (line 177) is dead: `start` is
        -- reassigned before any later use.  The read-into-buffer plus
        -- `seekg(srcStart + length)` consumes exactly `length` bytes.
        match readBytes length sb with
        | (payload, sc) =>
          let compressed := encode payload
          .next { st with
                  input := sc,
                  out := writeOut st.out compressed,
                  compressedLength := compressed.length,
                  lastSegmentCompressed := true,
                  compCount := st.compCount + 1 }
      else if st.lastSegmentCompressed = true ∧ start < (st.out.pos : Int) then
        -- line 205: compressed driver does not fit
        .fail .CompressedSegmentDoesNotFit { st with input := sb }
      else
        -- lines 195-203 warning, lines 220-234 ordinary placement
        match readBytes length sb with
        | (payload, sc) =>
          .next { st with
                  input := sc,
                  out := writeOut (seekp st.out start.toNat) payload,
                  lastStart := start,
                  lastLength := length,
                  lastSegmentCompressed := false,
                  warnings := st.warnings ++
                    (if st.lastSegmentCompressed = false ∧
                        start + 3 < (st.out.pos : Int)
                     then [Warn.overlap] else []) }

/-- One iteration of the `while (true)` loop of `buildRom` (lines 105-236):
read the header byte, dispatch on it (`0x00` end, `0x80` entry point skip,
`0x81` extended header with granularity check, `> 0x81` unsupported, else
legacy header whose value is the cpuType). -/
def step (encode : List Nat → List Nat) (st : LoopState) : StepResult :=
  match read1 st.input with
  | (headerByte, s0) =>
    if s0.good = false then
      -- line 107: end of input while reading the header byte
      .done { st with input := s0 }
    else if headerByte = 0x00 then
      -- line 112: END segment
      .done { st with input := s0 }
    else if headerByte = 0x80 then
      -- line 114: entry point segment, 3 bytes skipped
      .next { st with input := ignore3 s0 }
    else if headerByte = 0x81 then
      -- lines 117-126: extended header
      match read1 s0 with
      | (cpuType, s1) =>
        match read1 s1 with
        | (_segmentType, s2) =>
          match read1 s2 with
          | (granularity, s3) =>
            if granularity ≠ 1 then
              .fail .UnsupportedGranularity { st with input := s3 }
            else
              handleRecord encode { st with input := s3 } cpuType
    else if 0x81 < headerByte then
      -- line 128: unsupported segment header
      .fail .UnsupportedSegmentHeader { st with input := s0 }
    else
      -- line 135: legacy header, the byte itself is the cpuType
      handleRecord encode { st with input := s0 } headerByte

/-- Fuelled iteration of `step`.  Every continuing iteration strictly
consumes input, so `remaining + 1` fuel (as supplied by `buildRom`) never
runs out. -/
def loopF (encode : List Nat → List Nat) : Nat → LoopState → Status × LoopState
  | 0, st => (.outOfFuel, st)
  | fuel + 1, st =>
    match step encode st with
    | .done s => (.success, s)
    | .fail e s => (.fatal e, s)
    | .next s => loopF encode fuel s

/-- `buildRom` (lines 88-239): check the two magic bytes (mismatch is a
warning only), then run the record loop from the initial state.
`compressedLength` starts at 0 as in `main` (line 26). -/
def buildRom (encode : List Nat → List Nat) (data : List Nat) :
    Status × LoopState :=
  match read1 ⟨data, true⟩ with
  | (m1, s1) =>
    match read1 s1 with
    | (m2, s2) =>
      let w1 : List Warn := if m1 ≠ 0x89 then [.badMagic1] else []
      let w2 : List Warn := if m2 ≠ 0x14 then [.badMagic2] else []
      loopF encode (s2.rem.length + 1)
        { input := s2, out := ⟨[], 0⟩, compressedLength := 0,
          lastStart := 0, lastLength := 0, lastSegmentCompressed := false,
          warnings := w1 ++ w2, compCount := 0 }

/-- Two loop states that agree on everything the run reports (output image,
compressed length, bookkeeping, warnings) and differ at most in the final
position of the input reader. -/
def sameModuloInput (a b : LoopState) : Prop :=
  a.out = b.out ∧ a.compressedLength = b.compressedLength ∧
  a.lastStart = b.lastStart ∧ a.lastLength = b.lastLength ∧
  a.lastSegmentCompressed = b.lastSegmentCompressed ∧
  a.warnings = b.warnings ∧ a.compCount = b.compCount

/-- Byte streams that consist of whole records: every record's fields and
payload are fully present, so the reader can only hit end-of-input at a
header-byte position.  Bounds `< 256` say the entries are genuine bytes. -/
inductive CompleteRecords : List Nat → Prop
  | nil : CompleteRecords []
  | entry (b1 b2 b3 : Nat) (rest : List Nat) :
      CompleteRecords rest → CompleteRecords (0x80 :: b1 :: b2 :: b3 :: rest)
  | ext (cpu segT gr s0 s1 s2 s3 l0 l1 : Nat) (payload rest : List Nat)
      (hcpu : cpu < 256) (hsegT : segT < 256) (hgr : gr < 256)
      (hs0 : s0 < 256) (hs1 : s1 < 256) (hs2 : s2 < 256) (hs3 : s3 < 256)
      (hl0 : l0 < 256) (hl1 : l1 < 256)
      (hlen : payload.length = l0 + 256 * l1) :
      CompleteRecords rest →
      CompleteRecords
        (0x81 :: cpu :: segT :: gr :: s0 :: s1 :: s2 :: s3 :: l0 :: l1 ::
          (payload ++ rest))
  | legacy (h s0 s1 s2 s3 l0 l1 : Nat) (payload rest : List Nat)
      (hh1 : 1 ≤ h) (hh2 : h < 0x80)
      (hs0 : s0 < 256) (hs1 : s1 < 256) (hs2 : s2 < 256) (hs3 : s3 < 256)
      (hl0 : l0 < 256) (hl1 : l1 < 256)
      (hlen : payload.length = l0 + 256 * l1) :
      CompleteRecords rest →
      CompleteRecords (h :: s0 :: s1 :: s2 :: s3 :: l0 :: l1 :: (payload ++ rest))

/-- Loop invariant: `compressedLength` is nonzero exactly when the
compressed-segment path has run at least once. -/
def InvCL (st : LoopState) : Prop :=
  st.compressedLength ≠ 0 ↔ 1 ≤ st.compCount

/-- The two forms of record header that produce a given `cpuType`: a legacy
one-byte header (the byte is the cpuType, lines 127-136) or an extended
`0x81` header with granularity 1 (lines 117-126). -/
def HdrFor (cpu : Nat) (hdr : List Nat) : Prop :=
  (hdr = [cpu] ∧ 1 ≤ cpu ∧ cpu < 0x80) ∨
  (∃ segT, hdr = [0x81, cpu, segT, 1] ∧ cpu < 256 ∧ segT < 256)

/-- A concrete codec satisfying the spec contract for the Compression Codec
(deterministic, lossless: it is injective, and nonempty input gives nonempty
output), used to instantiate theorems at concrete runs. -/
def encSample : List Nat → List Nat := fun l => l ++ [0]

/-- A stream containing two `cpuType 0x51`, `start 0` records (each of
length 1), then the `0x00` terminator. -/
def exTwoComp : List Nat :=
  [0x89, 0x14, 0x51, 0, 0, 0, 0, 1, 0, 7, 0x51, 0, 0, 0, 0, 1, 0, 9, 0x00]

/-- The end-to-end sample stream of spec section 8: legacy header cpuType 1,
start 0, length 2, payload `AA BB`, then the end marker. -/
def exSample : List Nat :=
  [0x89, 0x14, 0x01, 0x00, 0x00, 0x00, 0x00, 0x02, 0x00, 0xAA, 0xBB, 0x00]

/-! ## Computation lemmas for the stream primitives -/

theorem read1_cons (b : Nat) (l : List Nat) (hb : b < 256) :
    read1 ⟨b :: l, true⟩ = (b, ⟨l, true⟩) := by
  simp [read1, Nat.mod_eq_of_lt hb]

theorem read2LE_cons (b0 b1 : Nat) (l : List Nat)
    (h0 : b0 < 256) (h1 : b1 < 256) :
    read2LE ⟨b0 :: b1 :: l, true⟩ = (b0 + 256 * b1, ⟨l, true⟩) := by
  simp [read2LE, read1_cons _ _ h0, read1_cons _ _ h1]

theorem read4LE_cons (b0 b1 b2 b3 : Nat) (l : List Nat)
    (h0 : b0 < 256) (h1 : b1 < 256) (h2 : b2 < 256) (h3 : b3 < 256) :
    read4LE ⟨b0 :: b1 :: b2 :: b3 :: l, true⟩ =
      (b0 + 256 * b1 + 65536 * b2 + 16777216 * b3, ⟨l, true⟩) := by
  simp [read4LE, read1_cons _ _ h0, read1_cons _ _ h1, read1_cons _ _ h2,
    read1_cons _ _ h3]

theorem readBytes_exact (n : Nat) (p l : List Nat) (hp : p.length = n) :
    readBytes n ⟨p ++ l, true⟩ = (p, ⟨l, true⟩) := by
  subst hp
  simp [readBytes, List.take_left p l, List.drop_left p l,
    List.length_append, Nat.le_add_right]

theorem readBytes_fst_length (n : Nat) (s : IStream) :
    ((readBytes n s).1).length = n := by
  unfold readBytes
  split
  · split
    · simp [List.length_take]
      omega
    · simp [List.length_append, List.length_replicate]
      omega
  · simp [List.length_replicate]

theorem ignore3_cons (a b c : Nat) (l : List Nat) :
    ignore3 ⟨a :: b :: c :: l, true⟩ = ⟨l, true⟩ := by
  simp [ignore3]

theorem toSigned32_small (v : Nat) (h : v < 2147483648) :
    toSigned32 v = (v : Int) := by
  simp [toSigned32, h]

/-- With each byte below 256, the raw little-endian value is below `2^31`
exactly when the top byte is below 128; then the signed value is the raw
value itself. -/
theorem toSigned32_bytes_nonneg (s0 s1 s2 s3 : Nat)
    (h0 : s0 < 256) (h1 : s1 < 256) (h2 : s2 < 256) (h3 : s3 < 128) :
    toSigned32 (s0 + 256 * s1 + 65536 * s2 + 16777216 * s3) =
      ((s0 + 256 * s1 + 65536 * s2 + 16777216 * s3 : Nat) : Int) := by
  apply toSigned32_small
  omega

/-- With the top byte at or above 128 the signed 32-bit value is negative. -/
theorem toSigned32_bytes_neg (s0 s1 s2 s3 : Nat)
    (h0 : s0 < 256) (h1 : s1 < 256) (h2 : s2 < 256) (h3l : 128 ≤ s3)
    (h3 : s3 < 256) :
    toSigned32 (s0 + 256 * s1 + 65536 * s2 + 16777216 * s3) < 0 := by
  unfold toSigned32
  rw [if_neg (by omega)]
  have hlt : s0 + 256 * s1 + 65536 * s2 + 16777216 * s3 < 4294967296 := by omega
  omega

/-! ## Computation lemmas for `step` -/

theorem step_eof (encode : List Nat → List Nat) (st : LoopState)
    (hin : st.input = ⟨[], true⟩) :
    step encode st = .done { st with input := ⟨[], false⟩ } := by
  simp [step, hin, read1]

theorem step_end0 (encode : List Nat → List Nat) (st : LoopState)
    (rest : List Nat) (hin : st.input = ⟨0 :: rest, true⟩) :
    step encode st = .done { st with input := ⟨rest, true⟩ } := by
  simp [step, hin, read1_cons 0 rest (by omega)]

theorem step_entry (encode : List Nat → List Nat) (st : LoopState)
    (b1 b2 b3 : Nat) (rest : List Nat)
    (hin : st.input = ⟨0x80 :: b1 :: b2 :: b3 :: rest, true⟩) :
    step encode st = .next { st with input := ⟨rest, true⟩ } := by
  simp [step, hin, read1_cons 0x80 _ (by omega), ignore3_cons]

theorem step_legacy (encode : List Nat → List Nat) (st : LoopState)
    (h : Nat) (rest : List Nat) (hh1 : 1 ≤ h) (hh2 : h < 0x80)
    (hin : st.input = ⟨h :: rest, true⟩) :
    step encode st = handleRecord encode { st with input := ⟨rest, true⟩ } h := by
  have hne0 : h ≠ 0 := by omega
  have hne80 : h ≠ 0x80 := by omega
  have hne81 : h ≠ 0x81 := by omega
  have hngt : ¬ (0x81 < h) := by omega
  simp [step, hin, read1_cons h rest (by omega), hne0, hne80, hne81, hngt]

theorem step_ext (encode : List Nat → List Nat) (st : LoopState)
    (cpu segT gr : Nat) (rest : List Nat)
    (hcpu : cpu < 256) (hsegT : segT < 256) (hgr : gr < 256)
    (hin : st.input = ⟨0x81 :: cpu :: segT :: gr :: rest, true⟩) :
    step encode st =
      if gr = 1 then handleRecord encode { st with input := ⟨rest, true⟩ } cpu
      else .fail .UnsupportedGranularity { st with input := ⟨rest, true⟩ } := by
  by_cases h1 : gr = 1
  · subst h1
    simp [step, hin, read1_cons 0x81 _ (by omega), read1_cons cpu _ hcpu,
      read1_cons segT _ hsegT, read1_cons 1 _ (by omega)]
  · simp [step, hin, read1_cons 0x81 _ (by omega), read1_cons cpu _ hcpu,
      read1_cons segT _ hsegT, read1_cons gr _ hgr, h1]

/-- Master computation lemma for `handleRecord` on a stream whose next six
bytes are the little-endian `start` and `length` fields.  The right-hand
side mirrors the if-cascade of lines 143-234 with the read values in
place. -/
theorem handleRecord_eq (encode : List Nat → List Nat) (st : LoopState)
    (cpu s0 s1 s2 s3 l0 l1 : Nat) (tail : List Nat)
    (hs0 : s0 < 256) (hs1 : s1 < 256) (hs2 : s2 < 256) (hs3 : s3 < 256)
    (hl0 : l0 < 256) (hl1 : l1 < 256)
    (hin : st.input = ⟨s0 :: s1 :: s2 :: s3 :: l0 :: l1 :: tail, true⟩) :
    handleRecord encode st cpu =
      (if l0 + 256 * l1 = 0 then
         .fail .ZeroLengthSegment { st with input := ⟨tail, true⟩ }
       else if toSigned32 (s0 + 256 * s1 + 65536 * s2 + 16777216 * s3) < 0 then
         .fail .NegativeStartAddress { st with input := ⟨tail, true⟩ }
       else if cpu = 0x51 ∧
           toSigned32 (s0 + 256 * s1 + 65536 * s2 + 16777216 * s3) ≠ 0 ∧
           st.lastSegmentCompressed = true then
         .fail .FragmentedCompressedSegment { st with input := ⟨tail, true⟩ }
       else if cpu = 0x51 ∧
           toSigned32 (s0 + 256 * s1 + 65536 * s2 + 16777216 * s3) = 0 then
         .next { st with
                 input := (readBytes (l0 + 256 * l1) ⟨tail, true⟩).2,
                 out := writeOut st.out
                   (encode (readBytes (l0 + 256 * l1) ⟨tail, true⟩).1),
                 compressedLength :=
                   (encode (readBytes (l0 + 256 * l1) ⟨tail, true⟩).1).length,
                 lastSegmentCompressed := true,
                 compCount := st.compCount + 1 }
       else if st.lastSegmentCompressed = true ∧
           toSigned32 (s0 + 256 * s1 + 65536 * s2 + 16777216 * s3) <
             (st.out.pos : Int) then
         .fail .CompressedSegmentDoesNotFit { st with input := ⟨tail, true⟩ }
       else
         .next { st with
                 input := (readBytes (l0 + 256 * l1) ⟨tail, true⟩).2,
                 out := writeOut
                   (seekp st.out
                     (toSigned32 (s0 + 256 * s1 + 65536 * s2 + 16777216 * s3)).toNat)
                   (readBytes (l0 + 256 * l1) ⟨tail, true⟩).1,
                 lastStart := toSigned32 (s0 + 256 * s1 + 65536 * s2 + 16777216 * s3),
                 lastLength := l0 + 256 * l1,
                 lastSegmentCompressed := false,
                 warnings := st.warnings ++
                   (if st.lastSegmentCompressed = false ∧
                       toSigned32 (s0 + 256 * s1 + 65536 * s2 + 16777216 * s3) + 3 <
                         (st.out.pos : Int)
                    then [Warn.overlap] else []) }) := by
  simp only [handleRecord, hin, read4LE_cons _ _ _ _ _ hs0 hs1 hs2 hs3,
    read2LE_cons _ _ _ hl0 hl1]

/-- Compressed-driver path (lines 175-192) computed: a `cpuType 0x51`,
`start == 0` record with its full payload available consumes exactly the
payload, appends the codec output at the output cursor, overwrites
`compressedLength`, sets the compressed flag and touches nothing else. -/
theorem handleRecord_compressed (encode : List Nat → List Nat) (st : LoopState)
    (l0 l1 : Nat) (payload rest : List Nat)
    (hl0 : l0 < 256) (hl1 : l1 < 256)
    (hlen : payload.length = l0 + 256 * l1) (hnz : l0 + 256 * l1 ≠ 0)
    (hin : st.input = ⟨0 :: 0 :: 0 :: 0 :: l0 :: l1 :: (payload ++ rest), true⟩) :
    handleRecord encode st 0x51 =
      .next { st with
              input := ⟨rest, true⟩,
              out := writeOut st.out (encode payload),
              compressedLength := (encode payload).length,
              lastSegmentCompressed := true,
              compCount := st.compCount + 1 } := by
  rw [handleRecord_eq encode st 0x51 0 0 0 0 l0 l1 (payload ++ rest)
    (by omega) (by omega) (by omega) (by omega) hl0 hl1 hin]
  rw [show (0 : Nat) + 256 * 0 + 65536 * 0 + 16777216 * 0 = 0 by norm_num]
  rw [show toSigned32 0 = 0 by simp [toSigned32]]
  rw [if_neg hnz, if_neg (lt_irrefl (0 : Int)),
    if_neg (fun h => h.2.1 rfl), if_pos ⟨rfl, rfl⟩,
    readBytes_exact _ _ _ hlen]

/-- Ordinary placement (lines 195-234) computed, in the
`lastSegmentCompressed == false` regime: the record seeks the cursor to its
absolute start address, copies its payload there, updates the adjacency
bookkeeping, and emits an overlap warning exactly when
`start + 3 < cursor`. -/
theorem handleRecord_ordinary (encode : List Nat → List Nat) (st : LoopState)
    (cpu s0 s1 s2 s3 l0 l1 : Nat) (payload rest : List Nat)
    (hs0 : s0 < 256) (hs1 : s1 < 256) (hs2 : s2 < 256) (hs3 : s3 < 128)
    (hl0 : l0 < 256) (hl1 : l1 < 256)
    (hlen : payload.length = l0 + 256 * l1) (hnz : l0 + 256 * l1 ≠ 0)
    (hcpu : cpu ≠ 0x51) (hlc : st.lastSegmentCompressed = false)
    (hin : st.input = ⟨s0 :: s1 :: s2 :: s3 :: l0 :: l1 :: (payload ++ rest), true⟩) :
    handleRecord encode st cpu =
      .next { st with
              input := ⟨rest, true⟩,
              out := writeOut
                (seekp st.out (s0 + 256 * s1 + 65536 * s2 + 16777216 * s3))
                payload,
              lastStart := ((s0 + 256 * s1 + 65536 * s2 + 16777216 * s3 : Nat) : Int),
              lastLength := l0 + 256 * l1,
              lastSegmentCompressed := false,
              warnings := st.warnings ++
                (if ((s0 + 256 * s1 + 65536 * s2 + 16777216 * s3 : Nat) : Int) + 3 <
                     (st.out.pos : Int)
                 then [Warn.overlap] else []) } := by
  rw [handleRecord_eq encode st cpu s0 s1 s2 s3 l0 l1 (payload ++ rest)
    (by omega) (by omega) (by omega) (by omega) hl0 hl1 hin]
  rw [toSigned32_bytes_nonneg s0 s1 s2 s3 (by omega) (by omega) (by omega) hs3]
  rw [if_neg hnz]
  rw [if_neg (by
    simp only [not_lt]
    exact Int.natCast_nonneg _)]
  rw [if_neg (fun h => hcpu h.1), if_neg (fun h => hcpu h.1)]
  rw [if_neg (by
    intro h
    rw [hlc] at h
    exact Bool.false_ne_true h.1)]
  rw [readBytes_exact _ _ _ hlen, Int.toNat_natCast, hlc]
  simp only [eq_self_iff_true, true_and]

/-! ## End-of-input versus explicit `0x00` terminator (spec section 4.1) -/

theorem step_eof2 (encode : List Nat → List Nat) (o : OStream) (cl : Nat)
    (ls : Int) (ll : Nat) (lc : Bool) (w : List Warn) (cc : Nat) :
    step encode ⟨⟨[], true⟩, o, cl, ls, ll, lc, w, cc⟩ =
      .done ⟨⟨[], false⟩, o, cl, ls, ll, lc, w, cc⟩ :=
  step_eof encode _ rfl

theorem step_end02 (encode : List Nat → List Nat) (rest : List Nat)
    (o : OStream) (cl : Nat) (ls : Int) (ll : Nat) (lc : Bool) (w : List Warn)
    (cc : Nat) :
    step encode ⟨⟨0 :: rest, true⟩, o, cl, ls, ll, lc, w, cc⟩ =
      .done ⟨⟨rest, true⟩, o, cl, ls, ll, lc, w, cc⟩ :=
  step_end0 encode _ rest rfl

theorem step_entry2 (encode : List Nat → List Nat) (b1 b2 b3 : Nat)
    (rest : List Nat) (o : OStream) (cl : Nat) (ls : Int) (ll : Nat)
    (lc : Bool) (w : List Warn) (cc : Nat) :
    step encode ⟨⟨0x80 :: b1 :: b2 :: b3 :: rest, true⟩, o, cl, ls, ll, lc, w, cc⟩ =
      .next ⟨⟨rest, true⟩, o, cl, ls, ll, lc, w, cc⟩ :=
  step_entry encode _ b1 b2 b3 rest rfl

theorem step_legacy2 (encode : List Nat → List Nat) (h : Nat) (rest : List Nat)
    (o : OStream) (cl : Nat) (ls : Int) (ll : Nat) (lc : Bool) (w : List Warn)
    (cc : Nat) (hh1 : 1 ≤ h) (hh2 : h < 0x80) :
    step encode ⟨⟨h :: rest, true⟩, o, cl, ls, ll, lc, w, cc⟩ =
      handleRecord encode ⟨⟨rest, true⟩, o, cl, ls, ll, lc, w, cc⟩ h :=
  step_legacy encode _ h rest hh1 hh2 rfl

theorem step_ext2 (encode : List Nat → List Nat) (cpu segT gr : Nat)
    (rest : List Nat) (o : OStream) (cl : Nat) (ls : Int) (ll : Nat)
    (lc : Bool) (w : List Warn) (cc : Nat)
    (hcpu : cpu < 256) (hsegT : segT < 256) (hgr : gr < 256) :
    step encode ⟨⟨0x81 :: cpu :: segT :: gr :: rest, true⟩, o, cl, ls, ll, lc, w, cc⟩ =
      if gr = 1 then
        handleRecord encode ⟨⟨rest, true⟩, o, cl, ls, ll, lc, w, cc⟩ cpu
      else
        .fail .UnsupportedGranularity ⟨⟨rest, true⟩, o, cl, ls, ll, lc, w, cc⟩ :=
  step_ext encode _ cpu segT gr rest hcpu hsegT hgr rfl

set_option maxHeartbeats 1000000 in
/-- Processing one complete record inspects nothing beyond the record, so two
streams that agree on the record either fail identically or continue with the
same engine state over their respective leftovers. -/
theorem handleRecord_congr (encode : List Nat → List Nat)
    (o : OStream) (cl : Nat) (ls : Int) (ll : Nat) (lc : Bool)
    (w : List Warn) (cc : Nat)
    (cpu s0 s1 s2 s3 l0 l1 : Nat) (payload rest rest2 : List Nat)
    (hs0 : s0 < 256) (hs1 : s1 < 256) (hs2 : s2 < 256) (hs3 : s3 < 256)
    (hl0 : l0 < 256) (hl1 : l1 < 256)
    (hlen : payload.length = l0 + 256 * l1) :
    (∃ err stA stB,
      handleRecord encode
        ⟨⟨s0 :: s1 :: s2 :: s3 :: l0 :: l1 :: (payload ++ rest), true⟩,
          o, cl, ls, ll, lc, w, cc⟩ cpu = .fail err stA ∧
      handleRecord encode
        ⟨⟨s0 :: s1 :: s2 :: s3 :: l0 :: l1 :: (payload ++ rest2), true⟩,
          o, cl, ls, ll, lc, w, cc⟩ cpu = .fail err stB ∧
      sameModuloInput stA stB) ∨
    (∃ (o2 : OStream) (cl2 : Nat) (ls2 : Int) (ll2 : Nat) (lc2 : Bool)
       (w2 : List Warn) (cc2 : Nat),
      handleRecord encode
        ⟨⟨s0 :: s1 :: s2 :: s3 :: l0 :: l1 :: (payload ++ rest), true⟩,
          o, cl, ls, ll, lc, w, cc⟩ cpu =
        .next ⟨⟨rest, true⟩, o2, cl2, ls2, ll2, lc2, w2, cc2⟩ ∧
      handleRecord encode
        ⟨⟨s0 :: s1 :: s2 :: s3 :: l0 :: l1 :: (payload ++ rest2), true⟩,
          o, cl, ls, ll, lc, w, cc⟩ cpu =
        .next ⟨⟨rest2, true⟩, o2, cl2, ls2, ll2, lc2, w2, cc2⟩) := by
  rw [handleRecord_eq encode _ cpu s0 s1 s2 s3 l0 l1 (payload ++ rest)
    hs0 hs1 hs2 hs3 hl0 hl1 rfl]
  rw [handleRecord_eq encode _ cpu s0 s1 s2 s3 l0 l1 (payload ++ rest2)
    hs0 hs1 hs2 hs3 hl0 hl1 rfl]
  rw [readBytes_exact _ _ _ hlen, readBytes_exact _ _ _ hlen]
  dsimp only
  split_ifs
  · left
    refine ⟨_, _, _, rfl, rfl, ?_⟩
    exact ⟨rfl, rfl, rfl, rfl, rfl, rfl, rfl⟩
  · left
    refine ⟨_, _, _, rfl, rfl, ?_⟩
    exact ⟨rfl, rfl, rfl, rfl, rfl, rfl, rfl⟩
  · left
    refine ⟨_, _, _, rfl, rfl, ?_⟩
    exact ⟨rfl, rfl, rfl, rfl, rfl, rfl, rfl⟩
  · right
    exact ⟨_, _, _, _, _, _, _, rfl, rfl⟩
  · left
    refine ⟨_, _, _, rfl, rfl, ?_⟩
    exact ⟨rfl, rfl, rfl, rfl, rfl, rfl, rfl⟩
  · right
    exact ⟨_, _, _, _, _, _, _, rfl, rfl⟩
  · right
    exact ⟨_, _, _, _, _, _, _, rfl, rfl⟩

set_option maxHeartbeats 1600000 in
/-- Running the loop on a stream of complete records and on the same stream
with an explicit `0x00` terminator appended gives the same status and the
same reported state (output image, compressed length, bookkeeping,
warnings); only the final reader position differs. -/
theorem loopF_complete (encode : List Nat → List Nat)
    (body : List Nat) (hc : CompleteRecords body) :
    ∀ (o : OStream) (cl : Nat) (ls : Int) (ll : Nat) (lc : Bool) (w : List Warn)
      (cc f g : Nat), body.length < f → body.length + 1 < g →
      (loopF encode f ⟨⟨body, true⟩, o, cl, ls, ll, lc, w, cc⟩).1 =
        (loopF encode g ⟨⟨body ++ [0], true⟩, o, cl, ls, ll, lc, w, cc⟩).1 ∧
      sameModuloInput
        (loopF encode f ⟨⟨body, true⟩, o, cl, ls, ll, lc, w, cc⟩).2
        (loopF encode g ⟨⟨body ++ [0], true⟩, o, cl, ls, ll, lc, w, cc⟩).2 := by
  induction hc with
  | nil =>
    intro o cl ls ll lc w cc f g hf hg
    cases f with
    | zero => simp at hf
    | succ f1 =>
      cases g with
      | zero => simp at hg
      | succ g1 =>
        simp only [List.nil_append, loopF, step_eof2, step_end02]
        exact ⟨trivial, rfl, rfl, rfl, rfl, rfl, rfl, rfl⟩
  | entry b1 b2 b3 rest hr ih =>
    intro o cl ls ll lc w cc f g hf hg
    cases f with
    | zero => simp at hf
    | succ f1 =>
      cases g with
      | zero => simp at hg
      | succ g1 =>
        have hf1 : rest.length < f1 := by simp at hf; omega
        have hg1 : rest.length + 1 < g1 := by simp at hg; omega
        simp only [List.cons_append, loopF, step_entry2]
        exact ih o cl ls ll lc w cc f1 g1 hf1 hg1
  | ext cpu segT gr s0 s1 s2 s3 l0 l1 payload rest hcpu hsegT hgr hs0 hs1 hs2
      hs3 hl0 hl1 hlen hr ih =>
    intro o cl ls ll lc w cc f g hf hg
    cases f with
    | zero => simp at hf
    | succ f1 =>
      cases g with
      | zero => simp at hg
      | succ g1 =>
        have hf1 : rest.length < f1 := by simp at hf; omega
        have hg1 : rest.length + 1 < g1 := by simp at hg; omega
        have e1 := step_ext2 encode cpu segT gr
          (s0 :: s1 :: s2 :: s3 :: l0 :: l1 :: (payload ++ rest))
          o cl ls ll lc w cc hcpu hsegT hgr
        have e2 := step_ext2 encode cpu segT gr
          (s0 :: s1 :: s2 :: s3 :: l0 :: l1 :: (payload ++ (rest ++ [0])))
          o cl ls ll lc w cc hcpu hsegT hgr
        by_cases hgr1 : gr = 1
        · rw [if_pos hgr1] at e1 e2
          rcases handleRecord_congr encode o cl ls ll lc w cc cpu s0 s1 s2 s3
              l0 l1 payload rest (rest ++ [0]) hs0 hs1 hs2 hs3 hl0 hl1 hlen with
            ⟨err, stA, stB, eA, eB, hsm⟩ | ⟨o2, cl2, ls2, ll2, lc2, w2, cc2, eA, eB⟩
          · simp only [List.cons_append, List.append_assoc, loopF, e1, e2, eA, eB]
            exact ⟨trivial, hsm⟩
          · simp only [List.cons_append, List.append_assoc, loopF, e1, e2, eA, eB]
            exact ih o2 cl2 ls2 ll2 lc2 w2 cc2 f1 g1 hf1 hg1
        · rw [if_neg hgr1] at e1 e2
          simp only [List.cons_append, List.append_assoc, loopF, e1, e2]
          exact ⟨trivial, rfl, rfl, rfl, rfl, rfl, rfl, rfl⟩
  | legacy h s0 s1 s2 s3 l0 l1 payload rest hh1 hh2 hs0 hs1 hs2 hs3 hl0 hl1
      hlen hr ih =>
    intro o cl ls ll lc w cc f g hf hg
    cases f with
    | zero => simp at hf
    | succ f1 =>
      cases g with
      | zero => simp at hg
      | succ g1 =>
        have hf1 : rest.length < f1 := by simp at hf; omega
        have hg1 : rest.length + 1 < g1 := by simp at hg; omega
        have e1 := step_legacy2 encode h
          (s0 :: s1 :: s2 :: s3 :: l0 :: l1 :: (payload ++ rest))
          o cl ls ll lc w cc hh1 hh2
        have e2 := step_legacy2 encode h
          (s0 :: s1 :: s2 :: s3 :: l0 :: l1 :: (payload ++ (rest ++ [0])))
          o cl ls ll lc w cc hh1 hh2
        rcases handleRecord_congr encode o cl ls ll lc w cc h s0 s1 s2 s3
            l0 l1 payload rest (rest ++ [0]) hs0 hs1 hs2 hs3 hl0 hl1 hlen with
          ⟨err, stA, stB, eA, eB, hsm⟩ | ⟨o2, cl2, ls2, ll2, lc2, w2, cc2, eA, eB⟩
        · simp only [List.cons_append, List.append_assoc, loopF, e1, e2, eA, eB]
          exact ⟨trivial, hsm⟩
        · simp only [List.cons_append, List.append_assoc, loopF, e1, e2, eA, eB]
          exact ih o2 cl2 ls2 ll2 lc2 w2 cc2 f1 g1 hf1 hg1

/-! ## The `compressedLength` reporting invariant (spec section 8) -/

theorem handleRecord_InvCL (encode : List Nat → List Nat)
    (hne : ∀ b : List Nat, b ≠ [] → encode b ≠ [])
    (st : LoopState) (cpu : Nat) (hst : InvCL st) :
    ∀ r, (handleRecord encode st cpu = .next r ∨
          handleRecord encode st cpu = .done r) → InvCL r := by
  intro r hr
  rcases h4 : read4LE st.input with ⟨rawStart, sa⟩
  rcases h2 : read2LE sa with ⟨length, sb⟩
  rcases hb : readBytes length sb with ⟨payload, sc⟩
  simp only [handleRecord, h4, h2, hb] at hr
  split_ifs at hr with hz hneg hfrag hcomp hfit hwarn
  · rcases hr with hr | hr <;> simp at hr
  · rcases hr with hr | hr <;> simp at hr
  · rcases hr with hr | hr <;> simp at hr
  · rcases hr with hr | hr
    · have hlenp : payload.length = length := by
        have := readBytes_fst_length length sb
        rw [hb] at this
        exact this
      have hpne : payload ≠ [] := by
        intro hcon
        rw [hcon] at hlenp
        exact hz hlenp.symm
      injection hr with hr2
      subst hr2
      simp only [InvCL]
      constructor
      · intro _
        omega
      · intro _
        simpa using hne payload hpne
    · simp at hr
  · rcases hr with hr | hr <;> simp at hr
  · rcases hr with hr | hr
    · injection hr with hr2
      subst hr2
      simpa only [InvCL] using hst
    · simp at hr
  · rcases hr with hr | hr
    · injection hr with hr2
      subst hr2
      simpa only [InvCL] using hst
    · simp at hr

theorem step_InvCL (encode : List Nat → List Nat)
    (hne : ∀ b : List Nat, b ≠ [] → encode b ≠ [])
    (st : LoopState) (hst : InvCL st) :
    ∀ r, (step encode st = .next r ∨ step encode st = .done r) → InvCL r := by
  intro r hr
  rcases h0 : read1 st.input with ⟨headerByte, s0⟩
  simp only [step, h0] at hr
  split_ifs at hr
  · rcases hr with hr | hr
    · simp at hr
    · injection hr with hr2
      subst hr2
      simpa only [InvCL] using hst
  · rcases hr with hr | hr
    · simp at hr
    · injection hr with hr2
      subst hr2
      simpa only [InvCL] using hst
  · rcases hr with hr | hr
    · injection hr with hr2
      subst hr2
      simpa only [InvCL] using hst
    · simp at hr
  · rcases hr with hr | hr <;> simp at hr
  · have hst2 : InvCL { st with input := (read1 (read1 (read1 s0).2).2).2 } := by
      simpa only [InvCL] using hst
    exact handleRecord_InvCL encode hne _ _ hst2 r hr
  · rcases hr with hr | hr <;> simp at hr
  · have hst2 : InvCL { st with input := s0 } := by
      simpa only [InvCL] using hst
    exact handleRecord_InvCL encode hne _ _ hst2 r hr

theorem loopF_InvCL (encode : List Nat → List Nat)
    (hne : ∀ b : List Nat, b ≠ [] → encode b ≠ []) :
    ∀ (f : Nat) (st res : LoopState),
      InvCL st → loopF encode f st = (.success, res) → InvCL res := by
  intro f
  induction f with
  | zero =>
    intro st res hst h
    simp [loopF] at h
  | succ f1 ih =>
    intro st res hst h
    cases hs : step encode st with
    | done s =>
      simp only [loopF, hs] at h
      have hres : s = res := by
        have := congrArg Prod.snd h
        simpa using this
      subst hres
      exact step_InvCL encode hne st hst s (Or.inr hs)
    | fail e s =>
      simp only [loopF, hs] at h
      have := congrArg Prod.fst h
      simp at this
    | next s =>
      simp only [loopF, hs] at h
      exact ih s res (step_InvCL encode hne st hst s (Or.inl hs)) h

theorem buildRom_InvCL (encode : List Nat → List Nat)
    (hne : ∀ b : List Nat, b ≠ [] → encode b ≠ []) (data : List Nat)
    (hs : (buildRom encode data).1 = .success) :
    InvCL (buildRom encode data).2 := by
  rcases h1 : read1 ⟨data, true⟩ with ⟨m1, s1⟩
  rcases h2 : read1 s1 with ⟨m2, s2⟩
  have hb : buildRom encode data =
      loopF encode (s2.rem.length + 1)
        { input := s2, out := ⟨[], 0⟩, compressedLength := 0,
          lastStart := 0, lastLength := 0, lastSegmentCompressed := false,
          warnings := (if m1 ≠ 0x89 then [.badMagic1] else []) ++
            (if m2 ≠ 0x14 then [.badMagic2] else []),
          compCount := 0 } := by
    simp only [buildRom, h1, h2]
  rw [hb] at hs ⊢
  rcases hl : loopF encode (s2.rem.length + 1)
      { input := s2, out := ⟨[], 0⟩, compressedLength := 0,
        lastStart := 0, lastLength := 0, lastSegmentCompressed := false,
        warnings := (if m1 ≠ 0x89 then [.badMagic1] else []) ++
          (if m2 ≠ 0x14 then [.badMagic2] else []),
        compCount := 0 } with ⟨stat, res⟩
  rw [hl] at hs
  simp only at hs
  subst hs
  exact loopF_InvCL encode hne _ _ res (by simp [InvCL]) hl

/-! ## Remaining helper lemmas -/

theorem read1_cons_mod (b : Nat) (l : List Nat) :
    read1 ⟨b :: l, true⟩ = (b % 256, ⟨l, true⟩) := by
  simp [read1]

/-- Both header forms funnel into the common record handling with the given
`cpuType` (the switch of lines 111-137). -/
theorem step_header (encode : List Nat → List Nat) (st : LoopState)
    (cpu : Nat) (hdr rest : List Nat) (hh : HdrFor cpu hdr)
    (hin : st.input = ⟨hdr ++ rest, true⟩) :
    step encode st = handleRecord encode { st with input := ⟨rest, true⟩ } cpu := by
  rcases hh with ⟨he, h1, h2⟩ | ⟨segT, he, hcpu, hsegT⟩
  · subst he
    exact step_legacy encode st cpu rest h1 h2 hin
  · subst he
    rw [step_ext encode st cpu segT 1 rest hcpu hsegT (by omega) hin,
      if_pos rfl]

theorem padTo_take_length (d : List Nat) (p : Nat) :
    ((padTo d p).take p).length = p := by
  simp only [List.length_take, padTo, List.length_append, List.length_replicate,
    Nat.min_def]
  split <;> omega

/-- Content of a write: offset `p + i` of the written image holds byte `i`
of the run, for `i` within the run. -/
theorem writeBytesAt_getElem (d : List Nat) (p : Nat) (bs : List Nat) (i : Nat)
    (hi : i < bs.length) :
    (writeBytesAt d p bs)[p + i]? = bs[i]? := by
  rw [writeBytesAt, List.append_assoc]
  rw [List.getElem?_append, if_neg (by rw [padTo_take_length]; omega)]
  rw [padTo_take_length]
  have hpi : p + i - p = i := by omega
  rw [hpi]
  rw [List.getElem?_append, if_pos hi]

/-! ## Claim theorems -/

/-- C8: the input stream
`[0x89,0x14, 0x01,0x00,0x00,0x00,0x00, 0x02,0x00, 0xAA,0xBB, 0x00]`
(legacy header cpuType 1, start 0, length 2, payload `AA BB`, end marker)
converts successfully, for any codec, to the output image `[0xAA, 0xBB]`
with `compressedLength = 0`. -/
theorem end_to_end_sample_stream (encode : List Nat → List Nat) :
    (buildRom encode exSample).1 = .success ∧
    (buildRom encode exSample).2.out.data = [0xAA, 0xBB] ∧
    (buildRom encode exSample).2.compressedLength = 0 :=
  ⟨rfl, rfl, rfl⟩

/-- C10: an input stream that is exhausted from the start (empty file) still
converts successfully: the two magic reads only produce warnings, the first
header-byte read fails and is treated as end-of-stream, and the result is an
empty image with `compressedLength = 0`. -/
theorem empty_input_succeeds (encode : List Nat → List Nat) :
    (buildRom encode []).1 = .success ∧
    (buildRom encode []).2.out.data = [] ∧
    (buildRom encode []).2.compressedLength = 0 ∧
    (buildRom encode []).2.warnings = [Warn.badMagic1, Warn.badMagic2] :=
  ⟨rfl, rfl, rfl, rfl⟩

/-- C1 counterexample: with a codec satisfying the spec contract (nonempty
input gives nonempty output — any lossless codec does), the stream
`exTwoComp` containing TWO `cpuType 0x51`, `start 0` records converts
successfully with a nonzero `compressedLength`, so "nonzero iff exactly one
such record was present" is false: here it is nonzero with two records. -/
theorem compressedLength_two_records_counterexample :
    (∀ b : List Nat, b ≠ [] → encSample b ≠ []) ∧
    (buildRom encSample exTwoComp).1 = .success ∧
    (buildRom encSample exTwoComp).2.compCount = 2 ∧
    ¬ ((buildRom encSample exTwoComp).2.compressedLength ≠ 0 ↔
        (buildRom encSample exTwoComp).2.compCount = 1) := by
  refine ⟨fun b hb => by simp [encSample], rfl, rfl, ?_⟩
  decide

/-- C1 as amended: for every successful run with a codec that maps nonempty
buffers to nonempty buffers, the reported `compressedLength` is nonzero iff
AT LEAST ONE `cpuType 0x51`, `start 0` record was processed; if none was,
`compressedLength` is 0. -/
theorem compressedLength_nonzero_iff_compressed_record
    (encode : List Nat → List Nat) (data : List Nat)
    (hne : ∀ b : List Nat, b ≠ [] → encode b ≠ [])
    (hs : (buildRom encode data).1 = .success) :
    ((buildRom encode data).2.compressedLength ≠ 0 ↔
      1 ≤ (buildRom encode data).2.compCount) ∧
    ((buildRom encode data).2.compCount = 0 →
      (buildRom encode data).2.compressedLength = 0) := by
  have h := buildRom_InvCL encode hne data hs
  unfold InvCL at h
  refine ⟨h, fun h0 => ?_⟩
  by_contra hne2
  have := h.mp hne2
  omega

/-- Witness for the amended C1 at a concrete codec and stream. -/
theorem compressedLength_nonzero_iff_compressed_record_witness :
    ((buildRom encSample exTwoComp).2.compressedLength ≠ 0 ↔
      1 ≤ (buildRom encSample exTwoComp).2.compCount) ∧
    ((buildRom encSample exTwoComp).2.compCount = 0 →
      (buildRom encSample exTwoComp).2.compressedLength = 0) :=
  compressedLength_nonzero_iff_compressed_record encSample exTwoComp
    (fun b hb => by simp [encSample]) rfl

/-- C2: for every record with `cpuType 0x51` and `startAddress 0` (either
header form), the engine consumes exactly `length` payload bytes from the
reader, appends the codec output at the current output cursor (a sequential
`writeOut`, no seek), sets `compressedLength` to the compressed size, sets
the compressed flag, and leaves `lastStart` and `lastLength` unchanged (the
record update below keeps `st.lastStart`/`st.lastLength`). -/
theorem compressed_segment_effect (encode : List Nat → List Nat)
    (st : LoopState) (hdr : List Nat) (l0 l1 : Nat) (payload rest : List Nat)
    (hh : HdrFor 0x51 hdr)
    (hl0 : l0 < 256) (hl1 : l1 < 256)
    (hlen : payload.length = l0 + 256 * l1) (hnz : l0 + 256 * l1 ≠ 0)
    (hin : st.input =
      ⟨hdr ++ (0 :: 0 :: 0 :: 0 :: l0 :: l1 :: (payload ++ rest)), true⟩) :
    step encode st =
      .next { st with
              input := ⟨rest, true⟩,
              out := writeOut st.out (encode payload),
              compressedLength := (encode payload).length,
              lastSegmentCompressed := true,
              compCount := st.compCount + 1 } := by
  rw [step_header encode st 0x51 hdr _ hh hin]
  rw [handleRecord_compressed encode _ l0 l1 payload rest hl0 hl1 hlen hnz rfl]

/-- Witness for C2: a concrete `0x51`, start-0 record of length 1. -/
theorem compressed_segment_effect_witness :
    step encSample
      ⟨⟨[0x51, 0, 0, 0, 0, 1, 0, 0xAB], true⟩, ⟨[], 0⟩, 0, 3, 4, false, [], 0⟩ =
      .next ⟨⟨[], true⟩, ⟨[0xAB, 0], 2⟩, 2, 3, 4, true, [], 1⟩ :=
  compressed_segment_effect encSample
    ⟨⟨[0x51, 0, 0, 0, 0, 1, 0, 0xAB], true⟩, ⟨[], 0⟩, 0, 3, 4, false, [], 0⟩
    [0x51] 1 0 [0xAB] []
    (Or.inl ⟨rfl, by omega, by omega⟩) (by omega) (by omega) (by decide)
    (by decide) rfl

/-- C9: a second `cpuType 0x51`, `start 0` record arriving while
`lastSegmentCompressed` is true is NOT rejected (the
`FragmentedCompressedSegment` check needs `start != 0`): it is compressed and
appended at the current cursor like the first, and `compressedLength` is
overwritten with the new size, discarding the previous value. -/
theorem second_compressed_record_overwrites (encode : List Nat → List Nat)
    (st : LoopState) (hdr : List Nat) (l0 l1 : Nat) (payload rest : List Nat)
    (hh : HdrFor 0x51 hdr)
    (hl0 : l0 < 256) (hl1 : l1 < 256)
    (hlen : payload.length = l0 + 256 * l1) (hnz : l0 + 256 * l1 ≠ 0)
    (_hlc : st.lastSegmentCompressed = true)
    (hin : st.input =
      ⟨hdr ++ (0 :: 0 :: 0 :: 0 :: l0 :: l1 :: (payload ++ rest)), true⟩) :
    step encode st =
      .next { st with
              input := ⟨rest, true⟩,
              out := writeOut st.out (encode payload),
              compressedLength := (encode payload).length,
              lastSegmentCompressed := true,
              compCount := st.compCount + 1 } := by
  rw [step_header encode st 0x51 hdr _ hh hin]
  rw [handleRecord_compressed encode _ l0 l1 payload rest hl0 hl1 hlen hnz rfl]

/-- Witness for C9: previous compressed length 7 is discarded in favour of
the new size 2, with the compressed flag already set. -/
theorem second_compressed_record_overwrites_witness :
    step encSample
      ⟨⟨[0x51, 0, 0, 0, 0, 1, 0, 0xCD], true⟩, ⟨[7, 7], 2⟩, 7, 0, 0, true, [], 1⟩ =
      .next ⟨⟨[], true⟩, ⟨[7, 7, 0xCD, 0], 4⟩, 2, 0, 0, true, [], 2⟩ :=
  second_compressed_record_overwrites encSample
    ⟨⟨[0x51, 0, 0, 0, 0, 1, 0, 0xCD], true⟩, ⟨[7, 7], 2⟩, 7, 0, 0, true, [], 1⟩
    [0x51] 1 0 [0xCD] []
    (Or.inl ⟨rfl, by omega, by omega⟩) (by omega) (by omega) (by decide)
    (by decide) rfl rfl

/-- C3: overlap handling for ordinary records.  If the previous segment was
not compressed, a start with `start + 3 < cursor` only appends a non-fatal
overlap warning and processing continues (the record is still placed); if
the previous segment WAS compressed, `start < cursor` (no 3-byte slack) is
the fatal `CompressedSegmentDoesNotFit`. -/
theorem overlap_warning_and_compressed_fit (encode : List Nat → List Nat) :
    (∀ (st : LoopState) (hdr : List Nat) (cpu s0 s1 s2 s3 l0 l1 : Nat)
       (payload rest : List Nat),
       HdrFor cpu hdr → cpu ≠ 0x51 →
       s0 < 256 → s1 < 256 → s2 < 256 → s3 < 128 → l0 < 256 → l1 < 256 →
       payload.length = l0 + 256 * l1 → l0 + 256 * l1 ≠ 0 →
       st.lastSegmentCompressed = false →
       ((s0 + 256 * s1 + 65536 * s2 + 16777216 * s3 : Nat) : Int) + 3 <
         (st.out.pos : Int) →
       st.input =
         ⟨hdr ++ (s0 :: s1 :: s2 :: s3 :: l0 :: l1 :: (payload ++ rest)), true⟩ →
       step encode st =
         .next { st with
                 input := ⟨rest, true⟩,
                 out := writeOut
                   (seekp st.out (s0 + 256 * s1 + 65536 * s2 + 16777216 * s3))
                   payload,
                 lastStart := ((s0 + 256 * s1 + 65536 * s2 + 16777216 * s3 : Nat) : Int),
                 lastLength := l0 + 256 * l1,
                 lastSegmentCompressed := false,
                 warnings := st.warnings ++ [Warn.overlap] }) ∧
    (∀ (st : LoopState) (hdr : List Nat) (cpu s0 s1 s2 s3 l0 l1 : Nat)
       (tail : List Nat),
       HdrFor cpu hdr → cpu ≠ 0x51 →
       s0 < 256 → s1 < 256 → s2 < 256 → s3 < 128 → l0 < 256 → l1 < 256 →
       l0 + 256 * l1 ≠ 0 →
       st.lastSegmentCompressed = true →
       ((s0 + 256 * s1 + 65536 * s2 + 16777216 * s3 : Nat) : Int) <
         (st.out.pos : Int) →
       st.input = ⟨hdr ++ (s0 :: s1 :: s2 :: s3 :: l0 :: l1 :: tail), true⟩ →
       step encode st =
         .fail .CompressedSegmentDoesNotFit { st with input := ⟨tail, true⟩ }) := by
  constructor
  · intro st hdr cpu s0 s1 s2 s3 l0 l1 payload rest hh hcpu hs0 hs1 hs2 hs3
      hl0 hl1 hlen hnz hlc hov hin
    rw [step_header encode st cpu hdr _ hh hin]
    rw [handleRecord_ordinary encode _ cpu s0 s1 s2 s3 l0 l1 payload rest
      hs0 hs1 hs2 hs3 hl0 hl1 hlen hnz hcpu (by simpa using hlc) rfl]
    rw [if_pos (by simpa using hov)]
  · intro st hdr cpu s0 s1 s2 s3 l0 l1 tail hh hcpu hs0 hs1 hs2 hs3 hl0 hl1
      hnz hlc hlt hin
    rw [step_header encode st cpu hdr _ hh hin]
    rw [handleRecord_eq encode _ cpu s0 s1 s2 s3 l0 l1 tail
      hs0 hs1 hs2 (by omega) hl0 hl1 rfl]
    rw [toSigned32_bytes_nonneg s0 s1 s2 s3 hs0 hs1 hs2 hs3]
    rw [if_neg hnz]
    rw [if_neg (not_lt.mpr (Int.natCast_nonneg _))]
    rw [if_neg (fun h => hcpu h.1), if_neg (fun h => hcpu h.1)]
    rw [if_pos ⟨by simpa using hlc, by simpa using hlt⟩]

/-- Witness for C3: first conjunct at a record starting at 0 with the cursor
at 5 (warning, record still placed); second at the same geometry after a
compressed segment (fatal). -/
theorem overlap_warning_and_compressed_fit_witness :
    step encSample
      ⟨⟨[0x01, 0, 0, 0, 0, 1, 0, 0x42], true⟩, ⟨[9, 9, 9, 9, 9], 5⟩, 0, 0, 0,
        false, [], 0⟩ =
      .next ⟨⟨[], true⟩, ⟨[0x42, 9, 9, 9, 9], 1⟩, 0, 0, 1, false,
        [Warn.overlap], 0⟩ ∧
    step encSample
      ⟨⟨[0x01, 0, 0, 0, 0, 1, 0, 0x42], true⟩, ⟨[9, 9, 9, 9, 9], 5⟩, 0, 0, 0,
        true, [], 0⟩ =
      .fail .CompressedSegmentDoesNotFit
        ⟨⟨[0x42], true⟩, ⟨[9, 9, 9, 9, 9], 5⟩, 0, 0, 0, true, [], 0⟩ :=
  ⟨(overlap_warning_and_compressed_fit encSample).1
      ⟨⟨[0x01, 0, 0, 0, 0, 1, 0, 0x42], true⟩, ⟨[9, 9, 9, 9, 9], 5⟩, 0, 0, 0,
        false, [], 0⟩
      [0x01] 1 0 0 0 0 1 0 [0x42] []
      (Or.inl ⟨rfl, by omega, by omega⟩) (by omega) (by omega) (by omega)
      (by omega) (by omega) (by omega) (by omega) (by decide) (by decide)
      rfl (by decide) rfl,
    (overlap_warning_and_compressed_fit encSample).2
      ⟨⟨[0x01, 0, 0, 0, 0, 1, 0, 0x42], true⟩, ⟨[9, 9, 9, 9, 9], 5⟩, 0, 0, 0,
        true, [], 0⟩
      [0x01] 1 0 0 0 0 1 0 [0x42]
      (Or.inl ⟨rfl, by omega, by omega⟩) (by omega) (by omega) (by omega)
      (by omega) (by omega) (by omega) (by omega) (by decide)
      rfl (by decide) rfl⟩

/-- C4: a decoded record with `length = 0` is the fatal `ZeroLengthSegment`
regardless of its other fields (even a negative start); a record with
`startAddress < 0` (top byte at least 0x80) and nonzero length is the fatal
`NegativeStartAddress`.  Both abort the run (a `fail` ends the loop). -/
theorem zero_length_and_negative_start_fatal (encode : List Nat → List Nat) :
    (∀ (st : LoopState) (hdr : List Nat) (cpu s0 s1 s2 s3 : Nat)
       (tail : List Nat),
       HdrFor cpu hdr → s0 < 256 → s1 < 256 → s2 < 256 → s3 < 256 →
       st.input = ⟨hdr ++ (s0 :: s1 :: s2 :: s3 :: 0 :: 0 :: tail), true⟩ →
       step encode st = .fail .ZeroLengthSegment { st with input := ⟨tail, true⟩ }) ∧
    (∀ (st : LoopState) (hdr : List Nat) (cpu s0 s1 s2 s3 l0 l1 : Nat)
       (tail : List Nat),
       HdrFor cpu hdr → s0 < 256 → s1 < 256 → s2 < 256 → 128 ≤ s3 → s3 < 256 →
       l0 < 256 → l1 < 256 → l0 + 256 * l1 ≠ 0 →
       st.input = ⟨hdr ++ (s0 :: s1 :: s2 :: s3 :: l0 :: l1 :: tail), true⟩ →
       step encode st =
         .fail .NegativeStartAddress { st with input := ⟨tail, true⟩ }) := by
  constructor
  · intro st hdr cpu s0 s1 s2 s3 tail hh hs0 hs1 hs2 hs3 hin
    rw [step_header encode st cpu hdr _ hh hin]
    rw [handleRecord_eq encode _ cpu s0 s1 s2 s3 0 0 tail
      hs0 hs1 hs2 hs3 (by omega) (by omega) rfl]
    rw [if_pos (by norm_num)]
  · intro st hdr cpu s0 s1 s2 s3 l0 l1 tail hh hs0 hs1 hs2 h3l h3u hl0 hl1
      hnz hin
    rw [step_header encode st cpu hdr _ hh hin]
    rw [handleRecord_eq encode _ cpu s0 s1 s2 s3 l0 l1 tail
      hs0 hs1 hs2 h3u hl0 hl1 rfl]
    rw [if_neg hnz]
    rw [if_pos (toSigned32_bytes_neg s0 s1 s2 s3 hs0 hs1 hs2 h3l h3u)]

/-- Witness for C4: a zero-length record with a negative start byte pattern
still fails as `ZeroLengthSegment`; a length-1 record with start
`0x80000000` fails as `NegativeStartAddress`. -/
theorem zero_length_and_negative_start_fatal_witness :
    step encSample
      ⟨⟨[0x01, 0, 0, 0, 0xFF, 0, 0, 5], true⟩, ⟨[], 0⟩, 0, 0, 0, false, [], 0⟩ =
      .fail .ZeroLengthSegment
        ⟨⟨[5], true⟩, ⟨[], 0⟩, 0, 0, 0, false, [], 0⟩ ∧
    step encSample
      ⟨⟨[0x01, 0, 0, 0, 0x80, 1, 0, 5], true⟩, ⟨[], 0⟩, 0, 0, 0, false, [], 0⟩ =
      .fail .NegativeStartAddress
        ⟨⟨[5], true⟩, ⟨[], 0⟩, 0, 0, 0, false, [], 0⟩ :=
  ⟨(zero_length_and_negative_start_fatal encSample).1
      ⟨⟨[0x01, 0, 0, 0, 0xFF, 0, 0, 5], true⟩, ⟨[], 0⟩, 0, 0, 0, false, [], 0⟩
      [0x01] 1 0 0 0 0xFF [5]
      (Or.inl ⟨rfl, by omega, by omega⟩) (by omega) (by omega) (by omega)
      (by omega) rfl,
    (zero_length_and_negative_start_fatal encSample).2
      ⟨⟨[0x01, 0, 0, 0, 0x80, 1, 0, 5], true⟩, ⟨[], 0⟩, 0, 0, 0, false, [], 0⟩
      [0x01] 1 0 0 0 0x80 1 0 [5]
      (Or.inl ⟨rfl, by omega, by omega⟩) (by omega) (by omega) (by omega)
      (by omega) (by omega) (by omega) (by omega) (by decide) rfl⟩

/-- C5: a record with `cpuType 0x51` and nonzero (nonnegative) start decoded
while `lastSegmentCompressed` is true fails fatally with
`FragmentedCompressedSegment`. -/
theorem fragmented_compressed_segment_fatal (encode : List Nat → List Nat)
    (st : LoopState) (hdr : List Nat) (s0 s1 s2 s3 l0 l1 : Nat)
    (tail : List Nat) (hh : HdrFor 0x51 hdr)
    (hs0 : s0 < 256) (hs1 : s1 < 256) (hs2 : s2 < 256) (hs3 : s3 < 128)
    (hl0 : l0 < 256) (hl1 : l1 < 256) (hnz : l0 + 256 * l1 ≠ 0)
    (hnv : s0 + 256 * s1 + 65536 * s2 + 16777216 * s3 ≠ 0)
    (hlc : st.lastSegmentCompressed = true)
    (hin : st.input = ⟨hdr ++ (s0 :: s1 :: s2 :: s3 :: l0 :: l1 :: tail), true⟩) :
    step encode st =
      .fail .FragmentedCompressedSegment { st with input := ⟨tail, true⟩ } := by
  rw [step_header encode st 0x51 hdr _ hh hin]
  rw [handleRecord_eq encode _ 0x51 s0 s1 s2 s3 l0 l1 tail
    hs0 hs1 hs2 (by omega) hl0 hl1 rfl]
  rw [toSigned32_bytes_nonneg s0 s1 s2 s3 hs0 hs1 hs2 hs3]
  rw [if_neg hnz]
  rw [if_neg (not_lt.mpr (Int.natCast_nonneg _))]
  rw [if_pos ⟨rfl, Nat.cast_ne_zero.mpr hnv, by simpa using hlc⟩]

/-- Witness for C5: a second `0x51` record starting at 0x1234 right after a
compressed segment. -/
theorem fragmented_compressed_segment_fatal_witness :
    step encSample
      ⟨⟨[0x51, 0x34, 0x12, 0, 0, 1, 0, 5], true⟩, ⟨[1], 1⟩, 3, 0, 0, true, [], 1⟩ =
      .fail .FragmentedCompressedSegment
        ⟨⟨[5], true⟩, ⟨[1], 1⟩, 3, 0, 0, true, [], 1⟩ :=
  fragmented_compressed_segment_fatal encSample
    ⟨⟨[0x51, 0x34, 0x12, 0, 0, 1, 0, 5], true⟩, ⟨[1], 1⟩, 3, 0, 0, true, [], 1⟩
    [0x51] 0x34 0x12 0 0 1 0 [5]
    (Or.inl ⟨rfl, by omega, by omega⟩) (by omega) (by omega) (by omega)
    (by omega) (by omega) (by omega) (by decide) (by decide) rfl rfl

/-- C7: an ordinary record (previous segment not compressed) seeks the
output cursor to the absolute offset `startAddress` and writes exactly
`length` payload bytes there: afterwards the cursor is `start + length` and
image offsets `start .. start+length-1` hold the payload, regardless of the
cursor position before the record. -/
theorem ordinary_segment_placement (encode : List Nat → List Nat)
    (st : LoopState) (hdr : List Nat) (cpu s0 s1 s2 s3 l0 l1 : Nat)
    (payload rest : List Nat) (hh : HdrFor cpu hdr) (hcpu : cpu ≠ 0x51)
    (hs0 : s0 < 256) (hs1 : s1 < 256) (hs2 : s2 < 256) (hs3 : s3 < 128)
    (hl0 : l0 < 256) (hl1 : l1 < 256)
    (hlen : payload.length = l0 + 256 * l1) (hnz : l0 + 256 * l1 ≠ 0)
    (hlc : st.lastSegmentCompressed = false)
    (hin : st.input =
      ⟨hdr ++ (s0 :: s1 :: s2 :: s3 :: l0 :: l1 :: (payload ++ rest)), true⟩) :
    step encode st =
      .next { st with
              input := ⟨rest, true⟩,
              out := writeOut
                (seekp st.out (s0 + 256 * s1 + 65536 * s2 + 16777216 * s3))
                payload,
              lastStart := ((s0 + 256 * s1 + 65536 * s2 + 16777216 * s3 : Nat) : Int),
              lastLength := l0 + 256 * l1,
              lastSegmentCompressed := false,
              warnings := st.warnings ++
                (if ((s0 + 256 * s1 + 65536 * s2 + 16777216 * s3 : Nat) : Int) + 3 <
                     (st.out.pos : Int)
                 then [Warn.overlap] else []) } ∧
    (writeOut (seekp st.out (s0 + 256 * s1 + 65536 * s2 + 16777216 * s3))
        payload).pos =
      (s0 + 256 * s1 + 65536 * s2 + 16777216 * s3) + (l0 + 256 * l1) ∧
    (∀ i, i < payload.length →
      ((writeOut (seekp st.out (s0 + 256 * s1 + 65536 * s2 + 16777216 * s3))
          payload).data)[(s0 + 256 * s1 + 65536 * s2 + 16777216 * s3) + i]? =
        payload[i]?) := by
  refine ⟨?_, ?_, ?_⟩
  · rw [step_header encode st cpu hdr _ hh hin]
    rw [handleRecord_ordinary encode _ cpu s0 s1 s2 s3 l0 l1 payload rest
      hs0 hs1 hs2 hs3 hl0 hl1 hlen hnz hcpu (by simpa using hlc) rfl]
  · simp [writeOut, seekp, hlen]
  · intro i hi
    exact writeBytesAt_getElem st.out.data _ payload i hi

/-- Witness for C7: record with start 2 and length 2 placed from cursor 0. -/
theorem ordinary_segment_placement_witness :
    step encSample
      ⟨⟨[0x01, 2, 0, 0, 0, 2, 0, 0xA1, 0xB2], true⟩, ⟨[], 0⟩, 0, 0, 0, false,
        [], 0⟩ =
      .next ⟨⟨[], true⟩, ⟨[0, 0, 0xA1, 0xB2], 4⟩, 0, 2, 2, false, [], 0⟩ ∧
    (writeOut (seekp ⟨[], 0⟩ 2) [0xA1, 0xB2]).pos = 4 ∧
    ((writeOut (seekp ⟨[], 0⟩ 2) [0xA1, 0xB2]).data)[2 + 1]? = [0xA1, 0xB2][1]? := by
  have h := ordinary_segment_placement encSample
    ⟨⟨[0x01, 2, 0, 0, 0, 2, 0, 0xA1, 0xB2], true⟩, ⟨[], 0⟩, 0, 0, 0, false,
      [], 0⟩
    [0x01] 1 2 0 0 0 2 0 [0xA1, 0xB2] []
    (Or.inl ⟨rfl, by omega, by omega⟩) (by omega) (by omega) (by omega)
    (by omega) (by omega) (by omega) (by omega) (by decide) (by decide)
    rfl rfl
  exact ⟨h.1, h.2.1, h.2.2 1 (by decide)⟩

/-- C6: for a stream of complete records (so end-of-input can only be met at
a header-byte read), running without a terminator and running with an
explicit `0x00` terminator give the same status, the same output image and
the same `compressedLength`; in particular exhaustion at the header byte is
treated as clean end-of-stream, not an error. -/
theorem end_of_input_equals_explicit_terminator (encode : List Nat → List Nat)
    (m1 m2 : Nat) (body : List Nat) (hc : CompleteRecords body) :
    (buildRom encode (m1 :: m2 :: body)).1 =
      (buildRom encode (m1 :: m2 :: (body ++ [0]))).1 ∧
    (buildRom encode (m1 :: m2 :: body)).2.out =
      (buildRom encode (m1 :: m2 :: (body ++ [0]))).2.out ∧
    (buildRom encode (m1 :: m2 :: body)).2.compressedLength =
      (buildRom encode (m1 :: m2 :: (body ++ [0]))).2.compressedLength := by
  have h1 : buildRom encode (m1 :: m2 :: body) =
      loopF encode (body.length + 1)
        ⟨⟨body, true⟩, ⟨[], 0⟩, 0, 0, 0, false,
          ((if m1 % 256 ≠ 0x89 then [.badMagic1] else []) ++
           (if m2 % 256 ≠ 0x14 then [.badMagic2] else [])), 0⟩ := by
    simp only [buildRom, read1_cons_mod]
  have h2 : buildRom encode (m1 :: m2 :: (body ++ [0])) =
      loopF encode ((body ++ [0]).length + 1)
        ⟨⟨body ++ [0], true⟩, ⟨[], 0⟩, 0, 0, 0, false,
          ((if m1 % 256 ≠ 0x89 then [.badMagic1] else []) ++
           (if m2 % 256 ≠ 0x14 then [.badMagic2] else [])), 0⟩ := by
    simp only [buildRom, read1_cons_mod]
  obtain ⟨hstat, hsm⟩ := loopF_complete encode body hc ⟨[], 0⟩ 0 0 0 false
    ((if m1 % 256 ≠ 0x89 then [.badMagic1] else []) ++
     (if m2 % 256 ≠ 0x14 then [.badMagic2] else [])) 0
    (body.length + 1) ((body ++ [0]).length + 1)
    (by omega) (by simp)
  rw [h1, h2]
  exact ⟨hstat, hsm.1, hsm.2.1⟩

/-- Witness for C6: one complete legacy record without a terminator versus
the same stream with the `0x00` terminator. -/
theorem end_of_input_equals_explicit_terminator_witness :
    (buildRom encSample (0x89 :: 0x14 :: [0x01, 0, 0, 0, 0, 1, 0, 0x42])).1 =
      (buildRom encSample
        (0x89 :: 0x14 :: ([0x01, 0, 0, 0, 0, 1, 0, 0x42] ++ [0]))).1 ∧
    (buildRom encSample (0x89 :: 0x14 :: [0x01, 0, 0, 0, 0, 1, 0, 0x42])).2.out =
      (buildRom encSample
        (0x89 :: 0x14 :: ([0x01, 0, 0, 0, 0, 1, 0, 0x42] ++ [0]))).2.out ∧
    (buildRom encSample
        (0x89 :: 0x14 :: [0x01, 0, 0, 0, 0, 1, 0, 0x42])).2.compressedLength =
      (buildRom encSample
        (0x89 :: 0x14 :: ([0x01, 0, 0, 0, 0, 1, 0, 0x42] ++ [0]))).2.compressedLength :=
  end_of_input_equals_explicit_terminator encSample 0x89 0x14
    [0x01, 0, 0, 0, 0, 1, 0, 0x42]
    (CompleteRecords.legacy 1 0 0 0 0 1 0 [0x42] []
      (by omega) (by omega) (by omega) (by omega) (by omega) (by omega)
      (by omega) (by omega) (by decide) CompleteRecords.nil)
